import Mathlib

/-!
Verification of the AQI monitoring / anomaly-detection backend.

The embedding models the three python source files:
* `main.py` — `detect_anomalies`: IQR-based outlier labelling over the
  `Value` column of a table;
* `fast_api.py` — schema normalization (`_load_and_prepare_data`), the
  lazy dataset store (`get_df`), the filtered query endpoint (`map_data`)
  and the grouped aggregate endpoint (`summary`).

Tables are lists of `Record`s; numeric cell values are `Option ℚ`
(`none` models a pandas `NaN`, i.e. a value that was null in the source
or was coerced to null by `pd.to_numeric(errors="coerce")`).
-/

namespace AQI

attribute [local semireducible] Rat.add Rat.sub Rat.mul Rat.inv

/-- One canonical measurement row, restricted to the columns the verified
properties touch.  `value` is the numeric-or-null `Value` column after
coercion; `is_anomaly` and `anomaly_score` are the columns added by
`detect_anomalies`. -/
structure Record where
  country_label : Option String
  pollutant : Option String
  city : Option String
  value : Option ℚ
  is_anomaly : ℕ
  anomaly_score : ℚ
deriving DecidableEq, Repr

/-- The non-null entries of the `Value` column, in row order:
`df["Value"].dropna()` of `main.py`. -/
def nonNullValues (rs : List Record) : List ℚ :=
  rs.filterMap (fun r => r.value)

/-- Linear-interpolation quantile estimation, the pandas default used by
`value_series.quantile(q)` in `main.py`: sort the series ascending, take
the fractional position `h = q·(n−1)`, and interpolate linearly between
the neighbouring order statistics. -/
def quantileLinear (xs : List ℚ) (q : ℚ) : ℚ :=
  let s := xs.insertionSort (fun a b => a ≤ b)
  let h : ℚ := q * ((s.length : ℚ) - 1)
  let i : ℕ := (⌊h⌋).toNat
  let lo := s.getD i 0
  let hi := s.getD (i + 1) lo
  lo + (h - (i : ℚ)) * (hi - lo)

/-- `value_series.quantile(0.25)` of `main.py`. -/
def q1Of (xs : List ℚ) : ℚ := quantileLinear xs (1/4)

/-- `value_series.quantile(0.75)` of `main.py`. -/
def q3Of (xs : List ℚ) : ℚ := quantileLinear xs (3/4)

/-- `value_series.median()` of `main.py` (equals the 0.5 linear quantile). -/
def medianOf (xs : List ℚ) : ℚ := quantileLinear xs (1/2)

/-- `lower_bound = q1 - 1.5 * iqr` of `main.py`. -/
def lowerBound (xs : List ℚ) : ℚ := q1Of xs - 3/2 * (q3Of xs - q1Of xs)

/-- `upper_bound = q3 + 1.5 * iqr` of `main.py`. -/
def upperBound (xs : List ℚ) : ℚ := q3Of xs + 3/2 * (q3Of xs - q1Of xs)

/-- The inner `_is_anomaly` closure of `main.py`: `0` on a null value,
else `int(v < lower_bound or v > upper_bound)`. -/
def isAnomalyFlag (lower upper : ℚ) (v : Option ℚ) : ℕ :=
  match v with
  | none => 0
  | some x => if x < lower ∨ x > upper then 1 else 0

/-- The inner `_score` closure of `main.py`: `0.0` on a null value,
`abs(v - median)` outside the fences, `0.0` inside. -/
def anomalyScoreOf (lower upper med : ℚ) (v : Option ℚ) : ℚ :=
  match v with
  | none => 0
  | some x => if x < lower ∨ x > upper then |x - med| else 0

/-- `detect_anomalies` of `main.py`: if every value is null the two added
columns are constant `0` / `0.0`; otherwise each row is labelled and
scored by the two closures applied over the `Value` column. -/
def detect_anomalies (rs : List Record) : List Record :=
  let vs := nonNullValues rs
  if vs.isEmpty then
    rs.map (fun r => { r with is_anomaly := 0, anomaly_score := 0 })
  else
    rs.map (fun r =>
      { r with
        is_anomaly := isAnomalyFlag (lowerBound vs) (upperBound vs) r.value,
        anomaly_score :=
          anomalyScoreOf (lowerBound vs) (upperBound vs) (medianOf vs) r.value })

/-! ### Filter parsing and the `/map-data` query (`fast_api.py`) -/

/-- Python `s.strip()` on the character list of a string. -/
def pyStrip (s : List Char) : List Char :=
  ((s.dropWhile Char.isWhitespace).reverse.dropWhile Char.isWhitespace).reverse

/-- Python `s.split(",")` on the character list of a string
(`"".split(",") == [""]`, separators are single commas). -/
def splitOnComma : List Char → List (List Char)
  | [] => [[]]
  | c :: rest =>
    let tail := splitOnComma rest
    if c = ',' then [] :: tail
    else
      match tail with
      | [] => [[c]]
      | t :: ts => (c :: t) :: ts

/-- `[c.strip() for c in s.split(",") if c.strip()]` of `map_data` in
`fast_api.py`: comma-separated tokens, whitespace-stripped, empty tokens
dropped. -/
def parsedTokens (s : String) : List String :=
  ((splitOnComma s.data).map (fun t => String.mk (pyStrip t))).filter
    (fun t => t ≠ "")

/-- `filtered["Country_Label"].isin(tokens)` for one cell: a null label is
never in the token list. -/
def labelMatches (tokens : List String) : Option String → Bool
  | none => false
  | some c => tokens.contains c

/-- The `if country:` block of `map_data` in `fast_api.py`: a `None` or
empty filter string is falsy in python, so it applies no filter;
otherwise keep the rows whose `Country_Label` is in the parsed token
list. -/
def applyCountry (country : Option String) (rs : List Record) : List Record :=
  match country with
  | none => rs
  | some s =>
    if s = "" then rs
    else rs.filter (fun r => labelMatches (parsedTokens s) r.country_label)

/-- The `if pollutant:` block of `map_data` in `fast_api.py`. -/
def applyPollutant (pollutant : Option String) (rs : List Record) : List Record :=
  match pollutant with
  | none => rs
  | some s =>
    if s = "" then rs
    else rs.filter (fun r => labelMatches (parsedTokens s) r.pollutant)

/-- The `if only_anomalies:` block of `map_data` in `fast_api.py`. -/
def applyAnom (only_anomalies : Bool) (rs : List Record) : List Record :=
  if only_anomalies then rs.filter (fun r => r.is_anomaly == 1) else rs

/-- The `/map-data` endpoint `map_data` of `fast_api.py`: the country
filter, then the pollutant filter, then the anomaly filter, then
`head(limit)`; returns `(count, data)` where `count` is the length of the
returned (truncated) data. -/
def map_data (rs : List Record) (country pollutant : Option String)
    (only_anomalies : Bool) (limit : ℕ) : ℕ × List Record :=
  let f1 := applyCountry country rs
  let f2 := applyPollutant pollutant f1
  let f3 := applyAnom only_anomalies f2
  let f4 := f3.take limit
  (f4.length, f4)

/-- The filter set denoted by an optional filter string: `none` (no
restriction) for an absent or empty string, otherwise the parsed token
list.  Mirrors the python truthiness test `if country:`. -/
def parseFilter : Option String → Option (List String)
  | none => none
  | some s => if s = "" then none else some (parsedTokens s)

/-- The country conjunct of the specified match predicate: no country
filter OR `country_label` in the set. -/
def countryClause (countries : Option (List String)) (r : Record) : Bool :=
  match countries with
  | none => true
  | some cs => labelMatches cs r.country_label

/-- The pollutant conjunct of the specified match predicate. -/
def pollutantClause (pollutants : Option (List String)) (r : Record) : Bool :=
  match pollutants with
  | none => true
  | some ps => labelMatches ps r.pollutant

/-- The anomaly conjunct of the specified match predicate: not
only-anomalies OR `is_anomaly = 1`. -/
def anomClause (oa : Bool) (r : Record) : Bool :=
  !oa || (r.is_anomaly == 1)

/-- Stated from the specification text of `query_measurements`: a record
matches iff (no country filter OR `country_label` in the set) AND (no
pollutant filter OR `pollutant` in the set) AND (not only-anomalies OR
`is_anomaly = 1`).  Used to compare `map_data` against the specified
filter semantics. -/
def recordMatches (countries pollutants : Option (List String)) (oa : Bool)
    (r : Record) : Bool :=
  countryClause countries r && pollutantClause pollutants r && anomClause oa r

/-! ### Schema normalization (`_load_and_prepare_data` of `fast_api.py`) -/

/-- One pass of the regex replacement `\s+ -> _`: each maximal run of
whitespace becomes a single underscore.  The boolean records whether the
previous character was whitespace. -/
def collapseWsAux : Bool → List Char → List Char
  | _, [] => []
  | prevWs, c :: rest =>
    if c.isWhitespace then
      if prevWs then collapseWsAux true rest
      else '_' :: collapseWsAux true rest
    else c :: collapseWsAux false rest

/-- Header canonicalization of `_load_and_prepare_data`:
`.str.strip().str.lower().str.replace(r"\s+", "_", regex=True)`. -/
def normalizeHeader (h : String) : String :=
  String.mk (collapseWsAux false ((pyStrip h.data).map Char.toLower))

/-- `find_col` of `_load_and_prepare_data`: the first alias present in the
normalized headers, else `none`. -/
def find_col (headers : List String) (names : List String) : Option String :=
  names.find? (fun n => decide (n ∈ headers))

/-- The required logical fields (every key of `required_logical` except
the dummy `Coordinates` and the optional `Source_Name`), in dictionary
order, each with its ordered alias list from `_load_and_prepare_data`. -/
def requiredFields : List (String × List String) :=
  [("Country_Code", ["country_code", "countrycode", "code"]),
   ("City", ["city"]),
   ("Location", ["location", "station", "site"]),
   ("Pollutant", ["pollutant", "parameter"]),
   ("Unit", ["unit"]),
   ("Value", ["value", "concentration"]),
   ("Last_Updated", ["last_updated", "date_local", "date", "timestamp"]),
   ("Country_Label", ["country_label", "country"])]

/-- Aliases tried for the latitude column. -/
def latAliases : List String := ["latitude", "lat"]

/-- Aliases tried for the longitude column. -/
def lonAliases : List String := ["longitude", "lon"]

/-- Aliases tried for the optional source-name column. -/
def sourceAliases : List String := ["source_name", "sourcename", "source"]

/-- `missing_logical` of `_load_and_prepare_data`: the required logical
fields whose alias search failed, in dictionary order, and the combined
marker `"Latitude/Longitude"` appended when either coordinate column is
unresolved. -/
def missingLogical (headers : List String) : List String :=
  (requiredFields.filter (fun p => (find_col headers p.2).isNone)).map
      (fun p => p.1) ++
    (if (find_col headers latAliases).isNone ||
        (find_col headers lonAliases).isNone
     then ["Latitude/Longitude"] else [])

/-- The `ValueError` raised by `_load_and_prepare_data`: the missing
logical fields, the normalized headers and the original headers. -/
structure SchemaError where
  missing : List String
  normalized : List String
  original : List String
deriving DecidableEq, Repr

/-- The column resolution produced by a successful load: the source
column chosen for each required logical field, the two coordinate
columns, and the optional source-name column (`none` means the constant
`"Unknown Source"` column is created instead). -/
structure ResolvedSchema where
  columns : List (String × String)
  lat_col : String
  lon_col : String
  source_col : Option String
deriving DecidableEq, Repr

/-- The header-resolution phase of `_load_and_prepare_data` of
`fast_api.py`: normalize the headers, resolve every logical field, and
either fail with the structured error or return the full resolution.
(The `getD ""` defaults are unreachable: in the success branch every
required lookup is `some`.) -/
def load_and_prepare (original : List String) : Except SchemaError ResolvedSchema :=
  let headers := original.map normalizeHeader
  let missing := missingLogical headers
  if missing = [] then
    Except.ok
      { columns :=
          requiredFields.filterMap
            (fun p => (find_col headers p.2).map (fun c => (p.1, c))),
        lat_col := (find_col headers latAliases).getD "",
        lon_col := (find_col headers lonAliases).getD "",
        source_col := find_col headers sourceAliases }
  else
    Except.error { missing := missing, normalized := headers, original := original }

/-! ### Dataset store (`startup_event` / `get_df` of `fast_api.py`) -/

/-- `get_df` of `fast_api.py`.  The state is `app.state.df` (`none` when
unloaded or a previous load failed); `load` is the outcome the call
`_load_and_prepare_data()` would produce for this request.  Returns the
result handed to the caller, the state afterwards, and how many load
attempts were made.  A python exception is the `Except.error` case: it
propagates before `app.state.df` is assigned, so the state is unchanged. -/
def get_df (load : Except String (List Record)) (st : Option (List Record)) :
    Except String (List Record) × Option (List Record) × ℕ :=
  match st with
  | some df => (Except.ok df, some df, 0)
  | none =>
    match load with
    | Except.error e => (Except.error e, none, 1)
    | Except.ok df => (Except.ok df, some df, 1)

/-! ### The `/summary` endpoint (`summary` of `fast_api.py`) -/

/-- One row of a grouped aggregate table.  `avg_value`, `min_value` and
`max_value` are `none` when the group has no non-null value (pandas
would report `NaN` there). -/
structure GroupRow where
  key : String
  num_measurements : ℕ
  avg_value : Option ℚ
  min_value : Option ℚ
  max_value : Option ℚ
deriving DecidableEq, Repr

/-- The non-null `Value` entries of the group with key `k`:
pandas aggregates (`count`/`mean`/`min`/`max`) ignore `NaN`. -/
def groupValues (key : Record → Option String) (rs : List Record) (k : String) :
    List ℚ :=
  (rs.filter (fun r => decide (key r = some k))).filterMap (fun r => r.value)

/-- One aggregate row of `df.groupby(...)["Value"].agg(...)`. -/
def aggRow (key : Record → Option String) (rs : List Record) (k : String) :
    GroupRow :=
  let vals := groupValues key rs k
  { key := k,
    num_measurements := vals.length,
    avg_value :=
      if vals.isEmpty then none else some (vals.sum / (vals.length : ℚ)),
    min_value := vals.min?,
    max_value := vals.max? }

/-- `df.groupby(col)["Value"].agg(["count","mean","min","max"])`:
one row per distinct non-null key (pandas drops null group keys). -/
def groupAgg (key : Record → Option String) (rs : List Record) : List GroupRow :=
  ((rs.filterMap key).dedup).map (aggRow key rs)

/-- The payload of the `/summary` endpoint. -/
structure SummaryOut where
  total_rows : ℕ
  num_countries : ℕ
  num_cities : ℕ
  num_pollutants : ℕ
  summary_by_country : List GroupRow
  summary_by_pollutant : List GroupRow
deriving Repr

/-- `summary` of `fast_api.py`: `nunique()` counts distinct non-null
values, and the two grouped tables aggregate `Value` by `Country_Label`
and by `Pollutant`. -/
def summary (rs : List Record) : SummaryOut :=
  { total_rows := rs.length,
    num_countries := (rs.filterMap (fun r => r.country_label)).dedup.length,
    num_cities := (rs.filterMap (fun r => r.city)).dedup.length,
    num_pollutants := (rs.filterMap (fun r => r.pollutant)).dedup.length,
    summary_by_country := groupAgg (fun r => r.country_label) rs,
    summary_by_pollutant := groupAgg (fun r => r.pollutant) rs }

/-! ### Shared sample data and helper lemmas -/

/-- A row whose only populated column is `Value`. -/
def mkValueRecord (v : Option ℚ) : Record :=
  { country_label := none, pollutant := none, city := none,
    value := v, is_anomaly := 0, anomaly_score := 0 }

/-- The value series `[1, 2, 3, 4, 5, 100]` from the specification. -/
def sampleSeries : List Record :=
  [1, 2, 3, 4, 5, 100].map (fun v => mkValueRecord (some v))

/-- `detect_anomalies` always labels each row with the closures taken at
the fences and median of the non-null values: in the all-null branch the
constant `0`/`0.0` columns agree with the closures, which send a null
value to `0`/`0.0` regardless of the bounds. -/
theorem detect_anomalies_eq_map (rs : List Record) :
    detect_anomalies rs = rs.map (fun r =>
      { r with
        is_anomaly :=
          isAnomalyFlag (lowerBound (nonNullValues rs))
            (upperBound (nonNullValues rs)) r.value,
        anomaly_score :=
          anomalyScoreOf (lowerBound (nonNullValues rs))
            (upperBound (nonNullValues rs)) (medianOf (nonNullValues rs))
            r.value }) := by
  simp only [detect_anomalies]
  by_cases h : (nonNullValues rs).isEmpty
  · simp only [h, if_true]
    refine List.map_congr_left (fun r hr => ?_)
    have hnil : nonNullValues rs = [] := List.isEmpty_iff.mp h
    have hv : r.value = none := List.filterMap_eq_nil_iff.mp hnil r hr
    rw [hv]
    rfl
  · simp only [h, Bool.false_eq_true, if_false]

/-- A member of a zip of a list with a mapped copy of itself is a pair
`(a, f a)` for some member `a`. -/
theorem mem_zip_map_self {α β : Type} (f : α → β) (l : List α) (p : α × β)
    (hp : p ∈ l.zip (l.map f)) : ∃ a ∈ l, p = (a, f a) := by
  obtain ⟨i, hi, hget⟩ := List.mem_iff_getElem.mp hp
  have hil : i < l.length := by
    have := hi
    simp only [List.length_zip, List.length_map, Nat.min_self] at this
    exact this
  refine ⟨l[i], List.getElem_mem hil, ?_⟩
  rw [← hget]
  rw [List.getElem_zip]
  simp

/-- C1: after anomaly detection, a record is flagged (`is_anomaly = 1`)
iff its value is non-null and lies strictly outside the IQR fences
computed over the non-null values, null values are never anomalies, and
`anomaly_score` is the distance `|value − median|` exactly when the
record is outside the fences, and `0` otherwise. -/
theorem anomaly_labels_match_iqr_fences (rs : List Record) (p : Record × Record)
    (hp : p ∈ rs.zip (detect_anomalies rs)) :
    (p.2.is_anomaly = 1 ↔
      ∃ v, p.1.value = some v ∧
        (v < lowerBound (nonNullValues rs) ∨ v > upperBound (nonNullValues rs))) ∧
    (p.1.value = none → p.2.is_anomaly = 0 ∧ p.2.anomaly_score = 0) ∧
    (∀ v, p.1.value = some v →
      p.2.anomaly_score =
        if v < lowerBound (nonNullValues rs) ∨ v > upperBound (nonNullValues rs)
        then |v - medianOf (nonNullValues rs)| else 0) := by
  rw [detect_anomalies_eq_map] at hp
  obtain ⟨a, ha, rfl⟩ := mem_zip_map_self _ rs p hp
  refine ⟨?_, ?_, ?_⟩
  · cases hv : a.value with
    | none => simp [isAnomalyFlag, hv]
    | some v =>
      by_cases hc :
          v < lowerBound (nonNullValues rs) ∨ v > upperBound (nonNullValues rs)
      · simp [isAnomalyFlag, hv, hc]
      · simp [isAnomalyFlag, hv, hc]
  · intro hv
    have hv2 : a.value = none := hv
    simp [isAnomalyFlag, anomalyScoreOf, hv2]
  · intro v hv
    have hv2 : a.value = some v := hv
    by_cases hc :
        v < lowerBound (nonNullValues rs) ∨ v > upperBound (nonNullValues rs)
    · simp [anomalyScoreOf, hv2, hc]
    · simp [anomalyScoreOf, hv2, hc]

/-- Witness for C1: in the sample series, the record with value `100` is
flagged, and the theorem characterizes its flag. -/
theorem anomaly_labels_match_iqr_fences_witness :
    ((({ mkValueRecord (some 100) with
          is_anomaly := 1, anomaly_score := 193/2 } : Record).is_anomaly = 1) ↔
      ∃ v, (mkValueRecord (some 100)).value = some v ∧
        (v < lowerBound (nonNullValues sampleSeries) ∨
          v > upperBound (nonNullValues sampleSeries))) :=
  (anomaly_labels_match_iqr_fences sampleSeries
    (mkValueRecord (some 100),
      { mkValueRecord (some 100) with is_anomaly := 1, anomaly_score := 193/2 })
    (by decide)).1

/-- C2: every record produced by the detector has `is_anomaly ∈ {0,1}`,
a non-negative `anomaly_score`, and a zero score whenever the flag is
`0`. -/
theorem detector_output_invariants (rs : List Record) (r : Record)
    (hr : r ∈ detect_anomalies rs) :
    (r.is_anomaly = 0 ∨ r.is_anomaly = 1) ∧ 0 ≤ r.anomaly_score ∧
      (r.is_anomaly = 0 → r.anomaly_score = 0) := by
  rw [detect_anomalies_eq_map] at hr
  obtain ⟨a, ha, rfl⟩ := List.mem_map.mp hr
  cases hv : a.value with
  | none => simp [isAnomalyFlag, anomalyScoreOf, hv]
  | some v =>
    by_cases hc :
        v < lowerBound (nonNullValues rs) ∨ v > upperBound (nonNullValues rs)
    · simp [isAnomalyFlag, anomalyScoreOf, hv, hc, abs_nonneg]
    · simp [isAnomalyFlag, anomalyScoreOf, hv, hc]

/-- Witness for C2: the invariants hold at the flagged record of the
sample series. -/
theorem detector_output_invariants_witness :
    (({ mkValueRecord (some 100) with
        is_anomaly := 1, anomaly_score := 193/2 } : Record).is_anomaly = 0 ∨
      ({ mkValueRecord (some 100) with
        is_anomaly := 1, anomaly_score := 193/2 } : Record).is_anomaly = 1) ∧
    0 ≤ ({ mkValueRecord (some 100) with
        is_anomaly := 1, anomaly_score := 193/2 } : Record).anomaly_score ∧
    (({ mkValueRecord (some 100) with
        is_anomaly := 1, anomaly_score := 193/2 } : Record).is_anomaly = 0 →
      ({ mkValueRecord (some 100) with
        is_anomaly := 1, anomaly_score := 193/2 } : Record).anomaly_score = 0) :=
  detector_output_invariants sampleSeries
    { mkValueRecord (some 100) with is_anomaly := 1, anomaly_score := 193/2 }
    (by decide)

/-- C4: on the value series `[1,2,3,4,5,100]` the detector computes
Q1 = 2.25, Q3 = 4.75, IQR = 2.5, fences −1.5 and 8.5, median 3.5, flags
only the record with value 100 (score 96.5), and leaves every other
record unflagged with score 0. -/
theorem sample_series_outlier_detection :
    q1Of (nonNullValues sampleSeries) = 9/4 ∧
    q3Of (nonNullValues sampleSeries) = 19/4 ∧
    q3Of (nonNullValues sampleSeries) - q1Of (nonNullValues sampleSeries) = 5/2 ∧
    lowerBound (nonNullValues sampleSeries) = -(3/2) ∧
    upperBound (nonNullValues sampleSeries) = 17/2 ∧
    medianOf (nonNullValues sampleSeries) = 7/2 ∧
    detect_anomalies sampleSeries =
      [mkValueRecord (some 1), mkValueRecord (some 2), mkValueRecord (some 3),
       mkValueRecord (some 4), mkValueRecord (some 5),
       { mkValueRecord (some 100) with is_anomaly := 1, anomaly_score := 193/2 }] := by
  decide

/-- C6: when every value in the table is null, detection succeeds and
every record gets `is_anomaly = 0` and `anomaly_score = 0`. -/
theorem all_null_values_no_anomalies (rs : List Record)
    (h : ∀ r ∈ rs, r.value = none) (r : Record) (hr : r ∈ detect_anomalies rs) :
    r.is_anomaly = 0 ∧ r.anomaly_score = 0 := by
  rw [detect_anomalies_eq_map] at hr
  obtain ⟨a, ha, rfl⟩ := List.mem_map.mp hr
  simp [isAnomalyFlag, anomalyScoreOf, h a ha]

/-- Witness for C6: a one-row all-null table. -/
theorem all_null_values_no_anomalies_witness :
    (mkValueRecord none).is_anomaly = 0 ∧ (mkValueRecord none).anomaly_score = 0 :=
  all_null_values_no_anomalies [mkValueRecord none] (by decide)
    (mkValueRecord none) (by decide)

/-- The linear-interpolation quantile of a list whose members are all
equal to `c` is `c`, for any `q ∈ [0,1]`. -/
theorem quantileLinear_const (xs : List ℚ) (c q : ℚ) (hne : xs ≠ [])
    (hall : ∀ v ∈ xs, v = c) (hq0 : 0 ≤ q) (hq1 : q ≤ 1) :
    quantileLinear xs q = c := by
  simp only [quantileLinear]
  have hperm := List.perm_insertionSort (fun a b : ℚ => a ≤ b) xs
  set s := xs.insertionSort (fun a b : ℚ => a ≤ b) with hs
  have hmem : ∀ v ∈ s, v = c := fun v hv => hall v (hperm.mem_iff.mp hv)
  have hpos : 0 < s.length := by
    rw [hperm.length_eq]
    exact List.length_pos.mpr hne
  have hn1 : (0 : ℚ) ≤ (s.length : ℚ) - 1 := by
    have h1 : (1 : ℚ) ≤ (s.length : ℚ) := by exact_mod_cast hpos
    linarith
  have hh0 : 0 ≤ q * ((s.length : ℚ) - 1) := mul_nonneg hq0 hn1
  have hh1 : q * ((s.length : ℚ) - 1) ≤ (s.length : ℚ) - 1 := by nlinarith
  have hfl0 : 0 ≤ ⌊q * ((s.length : ℚ) - 1)⌋ := Int.le_floor.mpr (by exact_mod_cast hh0)
  have hfl1 : ⌊q * ((s.length : ℚ) - 1)⌋ ≤ (s.length : ℤ) - 1 := by
    have hcast : ((s.length : ℚ) - 1) = (((s.length : ℤ) - 1 : ℤ) : ℚ) := by
      push_cast
      ring
    have hle := Int.floor_le_floor (α := ℚ) hh1
    have heq : ⌊((s.length : ℚ) - 1)⌋ = (s.length : ℤ) - 1 := by
      rw [hcast, Int.floor_intCast]
    omega
  have hidx : (⌊q * ((s.length : ℚ) - 1)⌋).toNat < s.length := by omega
  have hlo : s.getD (⌊q * ((s.length : ℚ) - 1)⌋).toNat 0 = c := by
    rw [List.getD_eq_getElem _ _ hidx]
    exact hmem _ (List.getElem_mem hidx)
  by_cases h2 : (⌊q * ((s.length : ℚ) - 1)⌋).toNat + 1 < s.length
  · have hhi :
        s.getD ((⌊q * ((s.length : ℚ) - 1)⌋).toNat + 1)
          (s.getD (⌊q * ((s.length : ℚ) - 1)⌋).toNat 0) = c := by
      rw [List.getD_eq_getElem _ _ h2]
      exact hmem _ (List.getElem_mem h2)
    rw [hhi, hlo]
    ring
  · have hhi :
        s.getD ((⌊q * ((s.length : ℚ) - 1)⌋).toNat + 1)
          (s.getD (⌊q * ((s.length : ℚ) - 1)⌋).toNat 0) =
          s.getD (⌊q * ((s.length : ℚ) - 1)⌋).toNat 0 :=
      List.getD_eq_default _ _ (by omega)
    rw [hhi, hlo]
    ring

/-- C10: when all non-null values are equal (and at least one exists),
both quartiles equal the common value, the IQR is `0`, both fences equal
the common value, and no record is flagged. -/
theorem constant_series_never_anomalous (rs : List Record) (c : ℚ)
    (hne : nonNullValues rs ≠ [])
    (hall : ∀ v ∈ nonNullValues rs, v = c) :
    q1Of (nonNullValues rs) = c ∧ q3Of (nonNullValues rs) = c ∧
    q3Of (nonNullValues rs) - q1Of (nonNullValues rs) = 0 ∧
    lowerBound (nonNullValues rs) = c ∧ upperBound (nonNullValues rs) = c ∧
    ∀ r ∈ detect_anomalies rs, r.is_anomaly = 0 ∧ r.anomaly_score = 0 := by
  have hq1 : q1Of (nonNullValues rs) = c :=
    quantileLinear_const _ c _ hne hall (by norm_num) (by norm_num)
  have hq3 : q3Of (nonNullValues rs) = c :=
    quantileLinear_const _ c _ hne hall (by norm_num) (by norm_num)
  have hlow : lowerBound (nonNullValues rs) = c := by
    simp [lowerBound, hq1, hq3]
  have hup : upperBound (nonNullValues rs) = c := by
    simp [upperBound, hq1, hq3]
  refine ⟨hq1, hq3, by rw [hq1, hq3]; ring, hlow, hup, ?_⟩
  intro r hr
  rw [detect_anomalies_eq_map] at hr
  obtain ⟨a, ha, rfl⟩ := List.mem_map.mp hr
  cases hv : a.value with
  | none => simp [isAnomalyFlag, anomalyScoreOf, hv]
  | some v =>
    have hvc : v = c := by
      refine hall v ?_
      exact List.mem_filterMap.mpr ⟨a, ha, hv⟩
    subst hvc
    simp [isAnomalyFlag, anomalyScoreOf, hv, hlow, hup, lt_irrefl]

/-- Witness for C10: a two-row table whose values are both `5`. -/
theorem constant_series_never_anomalous_witness :
    q1Of (nonNullValues [mkValueRecord (some 5), mkValueRecord (some 5)]) = 5 ∧
    q3Of (nonNullValues [mkValueRecord (some 5), mkValueRecord (some 5)]) = 5 ∧
    q3Of (nonNullValues [mkValueRecord (some 5), mkValueRecord (some 5)]) -
      q1Of (nonNullValues [mkValueRecord (some 5), mkValueRecord (some 5)]) = 0 ∧
    lowerBound (nonNullValues [mkValueRecord (some 5), mkValueRecord (some 5)]) = 5 ∧
    upperBound (nonNullValues [mkValueRecord (some 5), mkValueRecord (some 5)]) = 5 ∧
    ∀ r ∈ detect_anomalies [mkValueRecord (some 5), mkValueRecord (some 5)],
      r.is_anomaly = 0 ∧ r.anomaly_score = 0 :=
  constant_series_never_anomalous [mkValueRecord (some 5), mkValueRecord (some 5)]
    5 (by decide) (by decide)

/-- The country stage of `map_data` is the filter by the country conjunct
of the specified match predicate. -/
theorem applyCountry_eq_filter (country : Option String) (rs : List Record) :
    applyCountry country rs = rs.filter (countryClause (parseFilter country)) := by
  cases country with
  | none => exact (List.filter_eq_self.mpr (fun a _ => rfl)).symm
  | some s =>
    by_cases hs : s = ""
    · simp only [applyCountry, parseFilter, if_pos hs]
      exact (List.filter_eq_self.mpr (fun a _ => rfl)).symm
    · simp only [applyCountry, parseFilter, if_neg hs]
      rfl

/-- The pollutant stage of `map_data` is the filter by the pollutant
conjunct of the specified match predicate. -/
theorem applyPollutant_eq_filter (pollutant : Option String) (rs : List Record) :
    applyPollutant pollutant rs =
      rs.filter (pollutantClause (parseFilter pollutant)) := by
  cases pollutant with
  | none => exact (List.filter_eq_self.mpr (fun a _ => rfl)).symm
  | some s =>
    by_cases hs : s = ""
    · simp only [applyPollutant, parseFilter, if_pos hs]
      exact (List.filter_eq_self.mpr (fun a _ => rfl)).symm
    · simp only [applyPollutant, parseFilter, if_neg hs]
      rfl

/-- The anomaly stage of `map_data` is the filter by the anomaly conjunct
of the specified match predicate. -/
theorem applyAnom_eq_filter (oa : Bool) (rs : List Record) :
    applyAnom oa rs = rs.filter (anomClause oa) := by
  cases oa with
  | false => exact (List.filter_eq_self.mpr (fun a _ => rfl)).symm
  | true => rfl

/-- C3: `map_data` returns exactly the records matching the specified
conjunction of the three optional filters, in dataset order, truncated
to `limit`, and its `count` is the number of records returned after
truncation, i.e. `min(total matches, limit)`. -/
theorem map_data_matches_filter_semantics (rs : List Record)
    (country pollutant : Option String) (oa : Bool) (k : ℕ) :
    (map_data rs country pollutant oa k).2 =
      (rs.filter
        (recordMatches (parseFilter country) (parseFilter pollutant) oa)).take k ∧
    (map_data rs country pollutant oa k).1 =
      min ((rs.filter
        (recordMatches (parseFilter country) (parseFilter pollutant) oa)).length)
        k := by
  have hf3 :
      applyAnom oa (applyPollutant pollutant (applyCountry country rs)) =
        rs.filter
          (recordMatches (parseFilter country) (parseFilter pollutant) oa) := by
    rw [applyCountry_eq_filter, applyPollutant_eq_filter, applyAnom_eq_filter,
      List.filter_filter, List.filter_filter]
    refine List.filter_congr (fun r _ => ?_)
    simp only [recordMatches]
    cases countryClause (parseFilter country) r <;>
      cases pollutantClause (parseFilter pollutant) r <;>
      cases anomClause oa r <;> rfl
  constructor
  · show (applyAnom oa (applyPollutant pollutant (applyCountry country rs))).take k
      = _
    rw [hf3]
  · show ((applyAnom oa
        (applyPollutant pollutant (applyCountry country rs))).take k).length = _
    rw [hf3, List.length_take]
    omega

/-- C7: a filter string parses to its comma-separated tokens with
surrounding whitespace stripped and empty tokens dropped
(`"India, United States"` parses to `["India", "United States"]`), and an
absent or empty filter string imposes no restriction on `map_data`. -/
theorem filter_string_parsing (s t : String) (rs : List Record)
    (pollutant : Option String) (oa : Bool) (k : ℕ) :
    parsedTokens "India, United States" = ["India", "United States"] ∧
    (t ∈ parsedTokens s ↔
      t ≠ "" ∧ ∃ raw ∈ splitOnComma s.data, String.mk (pyStrip raw) = t) ∧
    parseFilter none = none ∧
    parseFilter (some "") = none ∧
    map_data rs none pollutant oa k = map_data rs (some "") pollutant oa k := by
  refine ⟨by decide, ?_, rfl, rfl, rfl⟩
  simp only [parsedTokens, List.mem_filter, List.mem_map, decide_eq_true_eq]
  constructor
  · rintro ⟨⟨raw, hraw, rfl⟩, hne⟩
    exact ⟨hne, raw, hraw, rfl⟩
  · rintro ⟨hne, raw, hraw, rfl⟩
    exact ⟨⟨raw, hraw, rfl⟩, hne⟩

/-- C8: a query arriving at an empty store makes exactly one load
attempt; a failed attempt propagates the error and leaves the store
empty (no partial or stale dataset), a successful attempt returns
exactly the freshly loaded dataset and publishes it. -/
theorem lazy_reload_on_unloaded_store (load : Except String (List Record))
    (st : Option (List Record)) (hst : st = none) :
    (get_df load st).2.2 = 1 ∧
    (∀ e, load = Except.error e →
      (get_df load st).1 = Except.error e ∧ (get_df load st).2.1 = none) ∧
    (∀ d, load = Except.ok d →
      (get_df load st).1 = Except.ok d ∧ (get_df load st).2.1 = some d) := by
  subst hst
  cases load <;> simp [get_df]

/-- Witness for C8: a failing load at an empty store. -/
theorem lazy_reload_on_unloaded_store_witness :
    (get_df (Except.error "CSV file not found") none).1 =
      Except.error "CSV file not found" ∧
    (get_df (Except.error "CSV file not found") none).2.1 = none :=
  (lazy_reload_on_unloaded_store (Except.error "CSV file not found") none
    rfl).2.1 "CSV file not found" rfl

/-- Stated from the specification text: every required logical field
(all except `source_name`) resolves against the normalized headers,
including both coordinate columns. -/
def requiredResolvable (headers : List String) : Prop :=
  (∀ p ∈ requiredFields, ∃ a ∈ p.2, a ∈ headers) ∧
  (∃ a ∈ latAliases, a ∈ headers) ∧ (∃ a ∈ lonAliases, a ∈ headers)

/-- Stated from the specification text: `f` is a missing logical field of
the given normalized headers — either a required scalar field none of
whose aliases occurs, or the combined coordinate marker when either the
latitude or the longitude column is unresolved. -/
def missingSpec (headers : List String) (f : String) : Prop :=
  (∃ als, (f, als) ∈ requiredFields ∧ ¬ ∃ a ∈ als, a ∈ headers) ∨
  (f = "Latitude/Longitude" ∧
    ((¬ ∃ a ∈ latAliases, a ∈ headers) ∨ ¬ ∃ a ∈ lonAliases, a ∈ headers))

/-- `find_col` fails exactly when no alias occurs among the headers. -/
theorem find_col_isNone (headers names : List String) :
    (find_col headers names).isNone = true ↔ ¬ ∃ a ∈ names, a ∈ headers := by
  rw [find_col, Option.isNone_iff_eq_none, List.find?_eq_none]
  simp

/-- The `missing_logical` list is empty exactly when every required
logical field resolves. -/
theorem missingLogical_eq_nil_iff (headers : List String) :
    missingLogical headers = [] ↔ requiredResolvable headers := by
  simp only [missingLogical, List.append_eq_nil, List.map_eq_nil_iff,
    List.filter_eq_nil_iff, requiredResolvable]
  constructor
  · rintro ⟨hfields, hite⟩
    by_cases hlat : (find_col headers latAliases).isNone = true
    · exfalso
      rw [if_pos (by simp [hlat])] at hite
      exact List.cons_ne_nil _ _ hite
    · by_cases hlon : (find_col headers lonAliases).isNone = true
      · exfalso
        rw [if_pos (by simp [hlon])] at hite
        exact List.cons_ne_nil _ _ hite
      · refine ⟨?_, ?_, ?_⟩
        · intro p hp
          by_contra hnone
          exact hfields p hp ((find_col_isNone headers p.2).mpr hnone)
        · by_contra hnone
          exact hlat ((find_col_isNone headers latAliases).mpr hnone)
        · by_contra hnone
          exact hlon ((find_col_isNone headers lonAliases).mpr hnone)
  · rintro ⟨hfields, hlat, hlon⟩
    refine ⟨?_, ?_⟩
    · intro p hp hnone
      exact (find_col_isNone headers p.2).mp hnone (hfields p hp)
    · rw [if_neg]
      simp only [Bool.or_eq_true, not_or]
      constructor
      · intro h
        exact (find_col_isNone headers latAliases).mp h hlat
      · intro h
        exact (find_col_isNone headers lonAliases).mp h hlon

/-- Membership in `missing_logical` coincides with the specified notion
of a missing logical field. -/
theorem mem_missingLogical (headers : List String) (f : String) :
    f ∈ missingLogical headers ↔ missingSpec headers f := by
  simp only [missingLogical, List.mem_append, List.mem_map, List.mem_filter,
    missingSpec]
  constructor
  · rintro (⟨p, ⟨hp, hnone⟩, rfl⟩ | hite)
    · left
      exact ⟨p.2, hp, (find_col_isNone headers p.2).mp hnone⟩
    · right
      by_cases hc : ((find_col headers latAliases).isNone ||
          (find_col headers lonAliases).isNone) = true
      · rw [if_pos hc] at hite
        rcases List.mem_singleton.mp hite with rfl
        rcases Bool.or_eq_true_iff.mp hc with hlat | hlon
        · exact ⟨rfl, Or.inl ((find_col_isNone headers latAliases).mp hlat)⟩
        · exact ⟨rfl, Or.inr ((find_col_isNone headers lonAliases).mp hlon)⟩
      · rw [if_neg hc] at hite
        exact absurd hite (List.not_mem_nil f)
  · rintro (⟨als, hmem, hnone⟩ | ⟨rfl, hcoord⟩)
    · left
      exact ⟨(f, als), ⟨hmem, (find_col_isNone headers als).mpr hnone⟩, rfl⟩
    · right
      have hc : ((find_col headers latAliases).isNone ||
          (find_col headers lonAliases).isNone) = true := by
        rcases hcoord with hlat | hlon
        · simp [(find_col_isNone headers latAliases).mpr hlat]
        · simp [(find_col_isNone headers lonAliases).mpr hlon]
      rw [if_pos hc]
      exact List.mem_singleton.mpr rfl

/-- C5: the load fails exactly when some required logical field is
unresolved; on failure the structured error carries the normalized
headers, the original headers, and a missing list whose members are
exactly the missing logical fields; no table is returned on failure. -/
theorem schema_error_names_missing_fields (original : List String) :
    ((load_and_prepare original).isOk = true ↔
      requiredResolvable (original.map normalizeHeader)) ∧
    ∀ e, load_and_prepare original = Except.error e →
      e.normalized = original.map normalizeHeader ∧
      e.original = original ∧
      ∀ f, (f ∈ e.missing ↔ missingSpec (original.map normalizeHeader) f) := by
  constructor
  · simp only [load_and_prepare]
    by_cases h : missingLogical (original.map normalizeHeader) = []
    · rw [if_pos h]
      simp only [Except.isOk]
      exact ⟨fun _ => (missingLogical_eq_nil_iff _).mp h, fun _ => rfl⟩
    · rw [if_neg h]
      refine iff_of_false (by simp [Except.isOk, Except.toBool])
        (fun hrr => absurd ((missingLogical_eq_nil_iff _).mpr hrr) h)
  · intro e he
    simp only [load_and_prepare] at he
    by_cases h : missingLogical (original.map normalizeHeader) = []
    · rw [if_pos h] at he
      exact absurd he (by simp)
    · rw [if_neg h] at he
      have he2 := (Except.error.injEq _ _).mp he
      subst he2
      exact ⟨rfl, rfl, fun f => mem_missingLogical _ f⟩

/-- Witness for C5: the single original header `"City"` leaves every
other required field unresolved, and `"Country_Code"` is among them. -/
theorem schema_error_names_missing_fields_witness :
    ("Country_Code" ∈
      (SchemaError.mk
        ["Country_Code", "Location", "Pollutant", "Unit", "Value",
          "Last_Updated", "Country_Label", "Latitude/Longitude"]
        ["city"] ["City"]).missing ↔
      missingSpec (["City"].map normalizeHeader) "Country_Code") :=
  ((schema_error_names_missing_fields ["City"]).2
    (SchemaError.mk
      ["Country_Code", "Location", "Pollutant", "Unit", "Value",
        "Last_Updated", "Country_Label", "Latitude/Longitude"]
      ["city"] ["City"])
    (by rfl)).2.2 "Country_Code"

/-- Summing an indicator of equality over a list counts the occurrences. -/
theorem sum_ite_eq_count (ks : List String) (c : String) :
    (ks.map (fun k => if c = k then (1 : ℕ) else 0)).sum = ks.count c := by
  induction ks with
  | nil => simp
  | cons k ks ih =>
    simp only [List.map_cons, List.sum_cons, List.count_cons, ih, beq_iff_eq]
    by_cases h : c = k
    · subst h
      simp only [if_pos rfl]
      omega
    · rw [if_neg h, if_neg (fun hh => h hh.symm)]
      omega

/-- Partitioning a `countP` over a set of keys covering every non-null
key: summing the per-key counts over a duplicate-free covering key list
counts the records with a non-null key. -/
theorem sum_countP_partition (key : Record → Option String) (P : Record → Bool)
    (rs : List Record) :
    ∀ ks : List String, ks.Nodup →
      (∀ r ∈ rs, ∀ c, key r = some c → c ∈ ks) →
      (ks.map (fun k =>
        rs.countP (fun r => decide (key r = some k) && P r))).sum =
        rs.countP (fun r => (key r).isSome && P r) := by
  induction rs with
  | nil =>
    intro ks _ _
    simp
  | cons r rs ih =>
    intro ks hnd hcov
    have hcov2 : ∀ x ∈ rs, ∀ c, key x = some c → c ∈ ks :=
      fun x hx => hcov x (List.mem_cons_of_mem _ hx)
    simp only [List.countP_cons]
    rw [List.sum_map_add, ih ks hnd hcov2]
    have hsum : (ks.map (fun k =>
        if (decide (key r = some k) && P r) = true then (1 : ℕ) else 0)).sum =
        if ((key r).isSome && P r) = true then 1 else 0 := by
      by_cases hbig : ((key r).isSome && P r) = true
      · obtain ⟨hks, hP⟩ := Bool.and_eq_true_iff.mp hbig
        obtain ⟨c, hkr⟩ := Option.isSome_iff_exists.mp hks
        have hc : c ∈ ks := hcov r (List.mem_cons_self r rs) c hkr
        have hmap : ks.map (fun k =>
            if (decide (key r = some k) && P r) = true then (1 : ℕ) else 0) =
            ks.map (fun k => if c = k then 1 else 0) :=
          List.map_congr_left (fun k hk => by simp [hkr, hP])
        rw [hmap, sum_ite_eq_count, List.count_eq_one_of_mem hnd hc,
          if_pos hbig]
      · have hmap : ks.map (fun k =>
            if (decide (key r = some k) && P r) = true then (1 : ℕ) else 0) =
            ks.map (fun _ => 0) := by
          refine List.map_congr_left (fun k hk => ?_)
          rw [if_neg]
          intro hkp
          obtain ⟨hk1, hk2⟩ := Bool.and_eq_true_iff.mp hkp
          refine hbig (Bool.and_eq_true_iff.mpr ⟨?_, hk2⟩)
          rw [of_decide_eq_true hk1]
          rfl
        rw [hmap, if_neg hbig]
        simp
    rw [hsum]

/-- Filtering by a decidable predicate and then keeping the non-null
values is one `filterMap` that returns the value only on matching rows. -/
theorem filter_filterMap_value (P : Record → Prop) [DecidablePred P]
    (rs : List Record) :
    (rs.filter (fun r => decide (P r))).filterMap (fun r => r.value) =
      rs.filterMap (fun r => if P r then r.value else none) := by
  induction rs with
  | nil => rfl
  | cons r rs ih =>
    by_cases h : P r
    · rw [List.filter_cons_of_pos (by simp [h]), List.filterMap_cons,
        List.filterMap_cons]
      simp only [if_pos h]
      cases r.value <;> simp [ih]
    · rw [List.filter_cons_of_neg (by simp [h]), List.filterMap_cons]
      simp only [if_neg h]
      exact ih

/-- The size of a group is the number of records with that key and a
non-null value. -/
theorem groupValues_length (key : Record → Option String) (rs : List Record)
    (k : String) :
    (groupValues key rs k).length =
      rs.countP (fun r => decide (key r = some k) && (r.value).isSome) := by
  rw [groupValues, List.length_filterMap_eq_countP, List.countP_filter]
  refine List.countP_congr (fun r _ => ?_)
  cases decide (key r = some k) <;> cases (r.value).isSome <;> simp

/-- C9: `summary` counts distinct non-null `country_label` values in
`num_countries`; each group row of either grouped table has a non-null
key occurring in the data, counts exactly the records with that key and
a non-null value, and aggregates min/max/mean over the non-null values
of its group only; and the `num_measurements` sum over the country
table equals the number of records with both a non-null `country_label`
and a non-null value. -/
theorem summary_grouping_null_semantics (rs : List Record) :
    (summary rs).num_countries =
      (rs.filterMap (fun r => r.country_label)).toFinset.card ∧
    (∀ row ∈ (summary rs).summary_by_country,
      (∃ r ∈ rs, r.country_label = some row.key) ∧
      row.num_measurements = rs.countP
        (fun r => decide (r.country_label = some row.key) && (r.value).isSome) ∧
      row.min_value = (rs.filterMap
        (fun r => if r.country_label = some row.key then r.value else none)).min? ∧
      row.max_value = (rs.filterMap
        (fun r => if r.country_label = some row.key then r.value else none)).max? ∧
      row.avg_value =
        (if (rs.filterMap
              (fun r => if r.country_label = some row.key then r.value else none))
            = [] then none
         else some ((rs.filterMap
              (fun r => if r.country_label = some row.key then r.value
                else none)).sum /
            ((rs.filterMap (fun r => if r.country_label = some row.key
              then r.value else none)).length : ℚ)))) ∧
    (∀ k, (∃ r ∈ rs, r.country_label = some k) →
      ∃ row ∈ (summary rs).summary_by_country, row.key = k) ∧
    (((summary rs).summary_by_country.map (fun row => row.num_measurements)).sum =
      rs.countP (fun r => (r.country_label).isSome && (r.value).isSome)) ∧
    (∀ row ∈ (summary rs).summary_by_pollutant,
      (∃ r ∈ rs, r.pollutant = some row.key) ∧
      row.num_measurements = rs.countP
        (fun r => decide (r.pollutant = some row.key) && (r.value).isSome)) := by
  refine ⟨(List.card_toFinset _).symm, ?_, ?_, ?_, ?_⟩
  · intro row hrow
    obtain ⟨k, hk, rfl⟩ := List.mem_map.mp hrow
    rw [show (aggRow (fun r => r.country_label) rs k).key = k from rfl]
    have hgv : groupValues (fun r => r.country_label) rs k =
        rs.filterMap
          (fun r => if r.country_label = some k then r.value else none) :=
      filter_filterMap_value _ rs
    refine ⟨?_, ?_, ?_, ?_, ?_⟩
    · exact List.mem_filterMap.mp (List.mem_dedup.mp hk)
    · exact groupValues_length _ rs k
    · show (groupValues (fun r => r.country_label) rs k).min? = _
      rw [hgv]
    · show (groupValues (fun r => r.country_label) rs k).max? = _
      rw [hgv]
    · show (if (groupValues (fun r => r.country_label) rs k).isEmpty then none
          else some ((groupValues (fun r => r.country_label) rs k).sum /
            ((groupValues (fun r => r.country_label) rs k).length : ℚ))) = _
      rw [hgv]
      by_cases hl : rs.filterMap
          (fun r => if r.country_label = some k then r.value else none) = []
      · simp [hl]
      · simp [hl, List.isEmpty_iff]
  · intro k hk
    obtain ⟨r, hr, hkey⟩ := hk
    exact ⟨aggRow (fun r => r.country_label) rs k,
      List.mem_map.mpr
        ⟨k, List.mem_dedup.mpr (List.mem_filterMap.mpr ⟨r, hr, hkey⟩), rfl⟩,
      rfl⟩
  · show ((((rs.filterMap (fun r => r.country_label)).dedup).map
        (aggRow (fun r => r.country_label) rs)).map
        (fun row => row.num_measurements)).sum = _
    rw [List.map_map]
    have hmap : ((rs.filterMap (fun r => r.country_label)).dedup).map
        ((fun row => row.num_measurements) ∘ aggRow (fun r => r.country_label) rs)
        = ((rs.filterMap (fun r => r.country_label)).dedup).map
          (fun k => rs.countP
            (fun r => decide (r.country_label = some k) && (r.value).isSome)) :=
      List.map_congr_left (fun k hk => groupValues_length _ rs k)
    rw [hmap]
    exact sum_countP_partition (fun r => r.country_label) (fun r => (r.value).isSome)
      rs _ (List.nodup_dedup _)
      (fun r hr c hc => List.mem_dedup.mpr (List.mem_filterMap.mpr ⟨r, hr, hc⟩))
  · intro row hrow
    obtain ⟨k, hk, rfl⟩ := List.mem_map.mp hrow
    exact ⟨List.mem_filterMap.mp (List.mem_dedup.mp hk),
      groupValues_length _ rs k⟩

/-- Rows exercising the grouping semantics: one country with one non-null
and one null value, and one record with a null country. -/
def sampleCountryRows : List Record :=
  [{ country_label := some "India", pollutant := some "pm25",
     city := some "Delhi", value := some 10, is_anomaly := 0, anomaly_score := 0 },
   { country_label := some "India", pollutant := none, city := none,
     value := none, is_anomaly := 0, anomaly_score := 0 },
   { country_label := none, pollutant := some "no2", city := none,
     value := some 5, is_anomaly := 0, anomaly_score := 0 }]

/-- Witness for C9: the country `"India"` occurs in the sample rows, so
the country table has a row for it. -/
theorem summary_grouping_null_semantics_witness :
    ∃ row ∈ (summary sampleCountryRows).summary_by_country, row.key = "India" :=
  (summary_grouping_null_semantics sampleCountryRows).2.2.1 "India"
    ⟨{ country_label := some "India", pollutant := some "pm25",
       city := some "Delhi", value := some 10, is_anomaly := 0,
       anomaly_score := 0 }, by decide, by decide⟩

end AQI
